import Mathlib

/-!
Verification of the cysto_depth data pipeline and depth-estimation model.

The Lean definitions below are a shallow embedding of the Python sources:
  - src/data/depth_datamodule.py  (DepthDataModule, _RandomAffine, _EndoMask, Squarify)
  - src/data/phong_datamodule.py  (PhongDataSet)
  - src/models/depth_model.py     (DepthEstimationModel)

Python floats are modelled as exact rationals; for every ratio appearing in a
theorem below the IEEE-double computation and the exact rational computation
agree, which is noted at the relevant definitions.  Randomness (numpy / torch
generators) is modelled by passing the drawn values (a permutation, a seed)
explicitly.  Fallible Python code (KeyError, AssertionError, IndexError,
AttributeError) is modelled with Option, where none is an uncaught exception.
-/

namespace CystoDepth

/-! ## Split builder (DepthDataModule.__init__, src/data/depth_datamodule.py lines 87-118)

The module builds `self.split_files = {'test': {}, 'validate': {}, 'train': {}}` and
iterates `stages = list(self.split_files.keys())`, i.e. in the fixed insertion order
test, validate, train.  A first loop assigns the regex-valued stages, removing the
matched files from the per-modality pools; a second loop assigns the float-valued
stages from a random permutation of the indices of the remaining color pool.
-/

/-- The three dataset stages. -/
inductive Stage
  | test
  | validate
  | train
deriving DecidableEq, Repr

/-- Iteration order of the stage loops: insertion order of the
`split_files` dict literal on line 99. -/
def stagesOrder : List Stage := [Stage.test, Stage.validate, Stage.train]

/-- A value of the `split` dict: either a regex (modelled as the decidable
predicate `re.compile(pattern).search`) or a float ratio (modelled as an exact
rational). -/
inductive SpecVal
  | regex (p : String → Bool)
  | ratio (q : ℚ)

/-- Per-stage file lists, one list per modality (`color`, `depth`). -/
structure StageFiles where
  color : List String
  depth : List String
deriving DecidableEq, Repr

/-- The constructed `split_files` mapping. -/
structure SplitFiles where
  test : StageFiles
  validate : StageFiles
  train : StageFiles
deriving DecidableEq, Repr

/-- Look a stage up in a `SplitFiles` value. -/
def SplitFiles.stage (sf : SplitFiles) : Stage → StageFiles
  | Stage.test => sf.test
  | Stage.validate => sf.validate
  | Stage.train => sf.train

/-- Python `int()` applied to a float: truncation toward zero. -/
def pyInt (q : ℚ) : ℤ :=
  if 0 ≤ q then ⌊q⌋ else ⌈q⌉

/-- Python `int(q * n)` for a rational `q` and a natural count `n`, evaluated on
exact rationals: the product is the fraction `(q.num * n) / q.den`, and
truncation toward zero of a fraction with positive denominator is `Int.tdiv`.
(The theorem `pyIntMulNat_eq_pyInt` below proves this form equal to
`pyInt (q * n)`; this form exists because it also evaluates inside the
kernel.) -/
def pyIntMulNat (q : ℚ) (n : Nat) : ℤ :=
  (q.num * n).tdiv q.den

/-- Python slice `l[:k]` for an integer bound `k` (a negative bound counts from
the end of the list, clamping at 0, exactly as numpy/Python slicing does). -/
def pySliceTo {α : Type} (l : List α) (k : ℤ) : List α :=
  if 0 ≤ k then l.take k.toNat else l.take (l.length - k.natAbs)

/-- Lines 106-107: `for f in self.split_files[stage][key]: file_list.remove(f)` —
remove (the first occurrence of) each matched file from the pool. -/
def eraseFiles (pool : List String) (matched : List String) : List String :=
  matched.foldl (fun acc f => acc.erase f) pool

/-- First stage loop (lines 101-107) on one modality pool: for every stage, look
the stage up in the `split` dict (a missing key is a KeyError, modelled as none);
a regex stage receives the matching files, which are then removed from the pool.
Returns the per-stage assignment (empty for non-regex stages) and the remaining
pool. -/
def regexPhase (split : Stage → Option SpecVal) :
    List Stage → List String → Option ((Stage → List String) × List String)
  | [], pool => some (fun _ => [], pool)
  | s :: rest, pool =>
    match split s with
    | none => none
    | some (SpecVal.regex p) =>
        let assigned := pool.filter p
        (regexPhase split rest (eraseFiles pool assigned)).map
          (fun r => (Function.update r.1 s assigned, r.2))
    | some (SpecVal.ratio _) => regexPhase split rest pool

/-- Numpy fancy indexing `np.asarray(file_list)[stage_indices]`: every index must
be in range (an out-of-range index is an IndexError, modelled as none). -/
def npIndex (pool : List String) : List Nat → Option (List String)
  | [] => some []
  | i :: is =>
    match pool[i]?, npIndex pool is with
    | some x, some xs => some (x :: xs)
    | _, _ => none

/-- Second stage loop (lines 113-118) on one modality pool: `remaining_count` is
fixed once (line 112, `len(indices)`) and never updated; each float-valued stage
takes `indices[:int(ratio * remaining_count) + 1]` from the shared index list and
drops the consumed slice. -/
def floatPhase (split : Stage → Option SpecVal) (remaining_count : Nat)
    (pool : List String) :
    List Stage → List Nat → Option ((Stage → List String) × List Nat)
  | [], indices => some (fun _ => [], indices)
  | s :: rest, indices =>
    match split s with
    | none => none
    | some (SpecVal.ratio q) =>
        let stage_indices := pySliceTo indices (pyIntMulNat q remaining_count + 1)
        match npIndex pool stage_indices with
        | none => none
        | some files =>
            (floatPhase split remaining_count pool rest
                (indices.drop stage_indices.length)).map
              (fun r => (Function.update r.1 s files, r.2))
    | some (SpecVal.regex _) => floatPhase split remaining_count pool rest indices

/-- Split construction of `DepthDataModule.__init__` (lines 93-118) given the two
sorted, deduplicated directory listings and the random permutation `perm` drawn
on line 109 (a permutation of the indices of the post-regex color pool).  The
assertion on line 96 compares the two pool lengths.  Each stage's final file
list is its regex assignment or its ratio assignment (the other one is empty). -/
def buildSplit (split : Stage → Option SpecVal) (color depth : List String)
    (perm : List Nat) : Option SplitFiles :=
  if color.length = depth.length then
    match regexPhase split stagesOrder color, regexPhase split stagesOrder depth with
    | some rc, some rd =>
      match floatPhase split perm.length rc.2 stagesOrder perm,
            floatPhase split perm.length rd.2 stagesOrder perm with
      | some gc, some gd =>
          some ⟨⟨rc.1 Stage.test ++ gc.1 Stage.test, rd.1 Stage.test ++ gd.1 Stage.test⟩,
                ⟨rc.1 Stage.validate ++ gc.1 Stage.validate,
                 rd.1 Stage.validate ++ gd.1 Stage.validate⟩,
                ⟨rc.1 Stage.train ++ gc.1 Stage.train, rd.1 Stage.train ++ gd.1 Stage.train⟩⟩
      | _, _ => none
    | _, _ => none
  else none

/-! ## Loading a saved split manifest (DepthDataModule.__init__, lines 90-91) -/

/-- The `split` argument of `DepthDataModule.__init__`: either a path string to
a previously saved manifest or a stage to value mapping. -/
inductive SplitArg
  | path (s : String)
  | spec (f : Stage → Option SpecVal)

/-- Python `json.load(split)` where `split` is a `str` (line 91).  `json.load`
expects a file-like object and immediately calls `.read()` on its argument; a
`str` has no `read` attribute, so the call raises AttributeError for every path
string, before the file is ever opened.  Modelled as none (uncaught
exception). -/
def json_load_of_str (_path : String) : Option SplitFiles := none

/-- Lines 90-118 of `DepthDataModule.__init__`: dispatch on the type of
`split`. -/
def initSplitFiles (split : SplitArg) (color depth : List String)
    (perm : List Nat) : Option SplitFiles :=
  match split with
  | SplitArg.path s => json_load_of_str s
  | SplitArg.spec f => buildSplit f color depth perm

/-! ## Loss composition (DepthEstimationModel.training_step,
src/models/depth_model.py lines 137-191)

The individual loss modules (BerHu, GradientLoss, CosineSimilarity, PhongLoss,
`torch.nn.functional.mse_loss`) live in utils/loss.py outside src/, so they are
abstracted as numeric-valued function parameters; the composition below is the
verbatim structure of `training_step`.  The regularization target
`ones_like(y_hat_depth[-1])` is a constant, so that term is a function of
`y_hat_normals` alone. -/

/-- Loss weighting factors and decoder flags from `SyntheticTrainingConfig`
consumed by `training_step`. -/
structure LossConfig where
  depth_loss_factor : ℚ
  depth_grad_loss_factor : ℚ
  normals_loss_factor : ℚ
  phong_loss_factor : ℚ
  predict_normals : Bool

/-- The scale loop of `training_step` (lines 158-168):
`for idx, predicted in enumerate(y_hat_depth[::-1])` accumulates the BerHu loss
at every scale and assigns the gradient loss once, at `idx == 0` (the first
element of the reversed output), and only when `current_epoch > 0`.  The
accumulator is the pair (depth_loss, grad_loss), both starting at 0. -/
def depth_grad_loop {α : Type} (current_epoch : Nat)
    (berhu gradient_loss : α → α → ℚ) (synth_depth : α) :
    Nat → List α → ℚ × ℚ → ℚ × ℚ
  | _, [], acc => acc
  | idx, predicted :: rest, acc =>
      depth_grad_loop current_epoch berhu gradient_loss synth_depth (idx + 1) rest
        (acc.1 + berhu predicted synth_depth,
         if 0 < current_epoch ∧ idx = 0 then gradient_loss predicted synth_depth
         else acc.2)

/-- The total training loss of `training_step` (lines 152-184).  When
`predict_normals` is set the normals cosine loss, the normals-norm
regularization and the phong loss are computed (the latter two read
`y_hat_depth[-1]`, an IndexError on an empty prediction list, modelled as
none); the total is
`depth_loss * depth_loss_factor + grad_loss * depth_grad_loss_factor +
 normals_loss * normals_loss_factor + phong_loss * phong_loss_factor +
 normals_regularization_loss` (line 179-183) — the regularization term is added
without a weighting factor. -/
def training_step_loss {α β γ : Type} (cfg : LossConfig) (current_epoch : Nat)
    (berhu gradient_loss : α → α → ℚ) (normals_loss_fn : β → β → ℚ)
    (phong_loss_fn : α × β → γ → ℚ) (normals_reg_fn : β → ℚ)
    (y_hat_depth : List α) (y_hat_normals : β)
    (synth_depth : α) (synth_normals : β) (synth_phong : γ) : Option ℚ :=
  let dl_gl := depth_grad_loop current_epoch berhu gradient_loss synth_depth 0
      y_hat_depth.reverse (0, 0)
  if cfg.predict_normals then
    match y_hat_depth.getLast? with
    | none => none
    | some finest =>
        let normals_loss := normals_loss_fn y_hat_normals synth_normals
        let normals_regularization_loss := normals_reg_fn y_hat_normals
        let phong_loss := phong_loss_fn (finest, y_hat_normals) synth_phong
        some (dl_gl.1 * cfg.depth_loss_factor +
              dl_gl.2 * cfg.depth_grad_loss_factor +
              normals_loss * cfg.normals_loss_factor +
              phong_loss * cfg.phong_loss_factor +
              normals_regularization_loss)
  else
    some (dl_gl.1 * cfg.depth_loss_factor +
          dl_gl.2 * cfg.depth_grad_loss_factor +
          0 * cfg.normals_loss_factor +
          0 * cfg.phong_loss_factor +
          0)

/-! ## Optimizers and warmup (DepthEstimationModel.create_optimizer and
configure_optimizers, src/models/depth_model.py lines 80-125, the warmup
variant named by the claim) -/

/-- Hyperparameters read by `create_optimizer` and `configure_optimizers`. -/
structure OptHParams where
  optimizer : String
  lr : ℚ
  warmup_batches : Nat
  accumulate_grad_batches : Nat
  train_batches : Nat
  lr_scheduler_monitor : String
  lr_scheduler_patience : Nat

/-- The `warmup` closure (lines 86-96):
`warmup_steps = ceil(warmup_batches / accumulate_grad_batches)` and
`factor = 1 if warmup_steps <= 0 else min(step / warmup_steps, 1)`.
Exact rational division models Python float division (they agree on the ceil
for all in-range integer inputs).  `accumulate_grad_batches = 0` would be a
ZeroDivisionError in Python; theorems about this function assume it positive. -/
def warmup (hp : OptHParams) (step : Nat) : ℚ :=
  let warmup_steps : ℤ :=
    ⌈(hp.warmup_batches : ℚ) / (hp.accumulate_grad_batches : ℚ)⌉
  if warmup_steps ≤ 0 then 1 else min ((step : ℚ) / (warmup_steps : ℚ)) 1

/-- A torch optimizer object; `alloc_id` models object identity (two instances
returned by separate constructor calls have distinct ids). -/
structure Optimizer where
  alloc_id : Nat
  lr : ℚ
deriving DecidableEq, Repr

/-- `create_optimizer` (lines 80-83): constructs a fresh Adam optimizer when
`hparams.optimizer == 'adam'`; any other name leaves the local variable unbound
and the return raises UnboundLocalError (modelled as none).  The allocation
counter `heap` provides fresh object identities. -/
def create_optimizer (hp : OptHParams) (heap : Nat) : Option (Optimizer × Nat) :=
  if hp.optimizer = "adam" then some (⟨heap, hp.lr⟩, heap + 1) else none

/-- A learning-rate scheduler: `LambdaLR` carries its multiplier function. -/
inductive Scheduler
  | lambdaLR (lr_lambda : Nat → ℚ)
  | reduceLROnPlateau

/-- The `lr_scheduler` dict entries of `configure_optimizers`. -/
structure SchedulerSpec where
  scheduler : Scheduler
  frequency : Nat
  interval_step : Bool
  monitor : Option String
  name : String

/-- One element of the tuple returned by `configure_optimizers`. -/
structure OptimizerSpec where
  frequency : ℤ
  optimizer : Optimizer
  lr_scheduler : SchedulerSpec

/-- `configure_optimizers` (lines 85-125): two separate `create_optimizer`
calls produce the warmup optimizer and the main optimizer; the first is paired
with a per-step `LambdaLR(warmup)` schedule, the second with
`ReduceLROnPlateau` monitored at the configured frequency. -/
def configure_optimizers (hp : OptHParams) (heap : Nat) :
    Option ((OptimizerSpec × OptimizerSpec) × Nat) :=
  match create_optimizer hp heap with
  | none => none
  | some (optimizer_warmup, h1) =>
    match create_optimizer hp h1 with
    | none => none
    | some (optimizer_train, h2) =>
        some ((⟨(hp.warmup_batches : ℤ), optimizer_warmup,
                ⟨Scheduler.lambdaLR (warmup hp), 1, true, none, "lr/warmup"⟩⟩,
               ⟨(hp.train_batches : ℤ) - (hp.warmup_batches : ℤ), optimizer_train,
                ⟨Scheduler.reduceLROnPlateau, hp.lr_scheduler_patience, false,
                 some hp.lr_scheduler_monitor, "lr/reduce_on_plateau"⟩⟩), h2)

/-! ## Squarify (src/data/depth_datamodule.py lines 44-55) -/

/-- Python `round(d / 2.0)` for a nonnegative integer `d`: round half to
even. -/
def pyRoundHalfDiv2 (d : Nat) : Nat :=
  if d % 2 = 0 then d / 2 else if (d / 2) % 2 = 0 then d / 2 else d / 2 + 1

/-- torchvision `CenterCrop(size)` for `size` at most both spatial dimensions:
`crop_top = int(round((height - crop_height) / 2.0))`, likewise for the left
edge, then the `size` by `size` window at that offset.  Images are lists of
pixel rows; the width is that of the first row (torch tensors have uniform
rows). -/
def center_crop {α : Type} (size : Nat) (img : List (List α)) : List (List α) :=
  let h := img.length
  let w := (img.headD []).length
  let top := pyRoundHalfDiv2 (h - size)
  let left := pyRoundHalfDiv2 (w - size)
  ((img.drop top).take size).map (fun row => (row.drop left).take size)

/-- torchvision `Resize(size)` with an integer target: the image is returned
unchanged when its smaller edge already equals `size`; otherwise the
interpolation kernel rescales so the smaller edge becomes `size`.  The kernel
is torchvision library code, abstracted as the parameter `interp`. -/
def tv_resize {α : Type} (interp : Nat → List (List α) → List (List α))
    (size : Nat) (img : List (List α)) : List (List α) :=
  let h := img.length
  let w := (img.headD []).length
  if (w ≤ h ∧ w = size) ∨ (h ≤ w ∧ h = size) then img else interp size img

/-- `Squarify.__call__` (lines 51-55): center-crop to the shorter spatial
dimension, then resize to `image_size` when one is configured. -/
def Squarify {α : Type} (interp : Nat → List (List α) → List (List α))
    (image_size : Option Nat) (data : List (List α)) : List (List α) :=
  let cropped := center_crop (min data.length (data.headD []).length) data
  match image_size with
  | some sz => tv_resize interp sz cropped
  | none => cropped

/-! ## Endoscopic mask (_EndoMask, src/data/depth_datamodule.py lines 28-41) -/

/-- An RGB pixel. -/
structure Color3 where
  r : ℚ
  g : ℚ
  b : ℚ
deriving DecidableEq, Repr

/-- An image: a list of pixel rows. -/
abbrev Img := List (List Color3)

/-- A sample in `[0, 1)` standing in for `torch.rand`: the torch generator is
external library state, modelled as a deterministic function of a seed and a
component index. -/
def randUnit (seed i : Nat) : ℚ :=
  (((seed + i) * 1103515245 + 12345) % 1000 : Nat) / 1000

/-- Line 37: `torch.rand((3, 1), dtype=torch.float) / 10` — a random dark
color, each component in `[0, 1/10)`. -/
def randDarkColor (seed : Nat) : Color3 :=
  ⟨randUnit seed 0 / 10, randUnit seed 1 / 10, randUnit seed 2 / 10⟩

/-- Modelled from the spec: `create_circular_mask` (utils/image_utils.py, not
under src/) builds an `h` by `w` boolean mask, True inside the circle centered
at the image center whose radius is half the smaller dimension (the default
radius factor); `invert` selects the complement.  The test is the integer form
of `(i + 1/2 - h/2)^2 + (j + 1/2 - w/2)^2 <= (min h w / 2)^2`, scaled by 16. -/
def create_circular_mask (h w : Nat) (invert : Bool) (i j : Nat) : Bool :=
  let inside : Bool :=
    decide ((4 * (i : ℤ) + 2 - 2 * (h : ℤ)) ^ 2 + (4 * (j : ℤ) + 2 - 2 * (w : ℤ)) ^ 2
      ≤ (2 * (min h w : ℤ)) ^ 2)
  if invert then !inside else inside

/-- Mutable tensor store: tensors are heap cells addressed by position, so that
in-place mutation and object identity are observable. -/
abbrev Heap := List Img

/-- The pixel of `img` at row `i`, column `j`. -/
def pixelAt (img : Img) (i j : Nat) : Option Color3 :=
  img[i]?.bind (fun row => row[j]?)

/-- Map over a list together with element positions, counting from `start`. -/
def mapWithIdx {α β : Type} (f : Nat → α → β) : Nat → List α → List β
  | _, [] => []
  | i, a :: as => f i a :: mapWithIdx f (i + 1) as

/-- Line 40: `data[:, create_circular_mask(*data.shape[-2:], invert=True)] =
mask_color` — every pixel selected by the inverted mask receives the fill
color; every other pixel is untouched. -/
def maskImage (fill : Color3) (img : Img) : Img :=
  let h := img.length
  let w := (img.headD []).length
  mapWithIdx (fun i row =>
    mapWithIdx (fun j px =>
      if create_circular_mask h w true i j then fill else px) 0 row) 0 img

/-- `_EndoMask.__call__` (lines 35-41) over the tensor heap: reads the tensor
at `ref`, picks the fill color (the configured `mask_color`, else a freshly
drawn random dark color), assigns the masked pixels of that same tensor in
place, and returns the same tensor reference. -/
def EndoMask_call (mask_color : Option Color3) (seed : Nat) (heap : Heap)
    (ref : Nat) : Option (Nat × Heap) :=
  match heap[ref]? with
  | none => none
  | some img =>
      let fill :=
        match mask_color with
        | none => randDarkColor seed
        | some c => c
      some (ref, heap.set ref (maskImage fill img))

/-! ## Synchronized random affine (_RandomAffine, src/data/depth_datamodule.py
lines 16-25, wrapped by SynchronizedTransform on lines 132-133) -/

/-- State of the torch global random generator. -/
structure RngState where
  seed : Nat
deriving DecidableEq, Repr

/-- The geometric parameters drawn by torchvision `RandomAffine.get_params`:
one rotation angle and one translation offset per axis. -/
structure AffineParams where
  angle : ℚ
  translate_x : ℚ
  translate_y : ℚ
deriving DecidableEq, Repr

/-- torchvision `RandomAffine.get_params`: draws an angle inside `degrees` and
translations bounded by `translate` from the generator, advancing it once.  The
torchvision sampler is external library code, modelled as a deterministic
function of the generator state. -/
def sample_affine_params (degrees translate : ℚ × ℚ) (g : RngState) :
    AffineParams × RngState :=
  (⟨degrees.1 + (degrees.2 - degrees.1) * randUnit g.seed 0,
    translate.1 * (2 * randUnit g.seed 1 - 1),
    translate.2 * (2 * randUnit g.seed 2 - 1)⟩,
   ⟨(g.seed * 1103515245 + 12345) % 2 ^ 31⟩)

/-- The fill used outside the transformed image: 0 or a border color. -/
inductive Fill
  | zero
  | color (c : Color3)
deriving DecidableEq, Repr

/-- Line 22: `torch.mean(data[:, [0, -1, 0, 1], [0, -1, 0, 1]], dim=-1)` — the
per-channel mean over the pixels (0,0), (h-1,w-1), (0,0), (1,1); pixel (0,0)
is sampled twice.  (On images smaller than 2 by 2 the torch indexing would be
an IndexError; the default value never arises for real inputs.) -/
def borderColor (data : Img) : Color3 :=
  let p00 := (pixelAt data 0 0).getD ⟨0, 0, 0⟩
  let pll := (pixelAt data (data.length - 1)
      ((data.headD []).length - 1)).getD ⟨0, 0, 0⟩
  let p11 := (pixelAt data 1 1).getD ⟨0, 0, 0⟩
  ⟨(p00.r + pll.r + p00.r + p11.r) / 4,
   (p00.g + pll.g + p00.g + p11.g) / 4,
   (p00.b + pll.b + p00.b + p11.b) / 4⟩

/-- `_RandomAffine.__call__` (lines 21-25): compute the fill (the border color
when `use_corner_as_fill`, else 0), construct a fresh `RandomAffine` and apply
it to `data`, which draws the affine parameters from the generator.  The affine
image kernel is torchvision library code, abstracted as the parameter `A`. -/
def RandomAffine_call (A : AffineParams → Fill → Img → Img)
    (degrees translate : ℚ × ℚ) (g : RngState) (data : Img)
    (use_corner_as_fill : Bool) : Img × RngState :=
  let border_color := borderColor data
  let fill := if use_corner_as_fill then Fill.color border_color else Fill.zero
  let pg := sample_affine_params degrees translate g
  (A pg.1 fill data, pg.2)

/-- Modelled from the spec: `SynchronizedTransform` (data/image_dataset.py, not
under src/) applies the wrapped stochastic transform to its channel tensors so
that every channel sees the same random draw: the generator state is saved
before the first channel and restored before each further channel, so the
wrapped transform's internal sampling yields identical parameters for every
channel, while each channel receives its own entry of `additional_args`.  The
generator ends advanced by exactly one draw. -/
def SynchronizedTransform_call (A : AffineParams → Fill → Img → Img)
    (degrees translate : ℚ × ℚ) (g : RngState)
    (channels : List Img) (additional_args : List Bool) : List Img × RngState :=
  ((channels.zip additional_args).map
    (fun p => (RandomAffine_call A degrees translate g p.1 p.2).1),
   (sample_affine_params degrees translate g).2)

/-! ## Phong rendering (PhongDataSet.__getitem__,
src/data/phong_datamodule.py lines 50-65) -/

/-- A 3-vector over exact rationals. -/
structure Vec3 where
  x : ℚ
  y : ℚ
  z : ℚ
deriving DecidableEq, Repr

/-- Dot product. -/
def Vec3.dot (a b : Vec3) : ℚ := a.x * b.x + a.y * b.y + a.z * b.z

/-- Componentwise difference. -/
def Vec3.sub (a b : Vec3) : Vec3 := ⟨a.x - b.x, a.y - b.y, a.z - b.z⟩

/-- Componentwise sum. -/
def Vec3.add (a b : Vec3) : Vec3 := ⟨a.x + b.x, a.y + b.y, a.z + b.z⟩

/-- Scalar multiple. -/
def Vec3.smul (c : ℚ) (a : Vec3) : Vec3 := ⟨c * a.x, c * a.y, c * a.z⟩

/-- Componentwise (Hadamard) product. -/
def Vec3.hadamard (a b : Vec3) : Vec3 := ⟨a.x * b.x, a.y * b.y, a.z * b.z⟩

/-- The light parameters of `utils.rendering.PointLights` as constructed on
lines 44-48 of phong_datamodule.py. -/
structure PointLights where
  location : Vec3
  diffuse_color : Vec3
  specular_color : Vec3
  ambient_color : Vec3
  attenuation_factor : ℚ
deriving DecidableEq, Repr

/-- The material parameters of `utils.rendering.Materials` (line 43). -/
structure Materials where
  shininess : Nat
deriving DecidableEq, Repr

/-- Modelled from the spec: the per-pixel point-light Phong shading term of
`render_rgbd` (utils/rendering.py, not under src/), spec section 4.5: the pixel
ray scaled by the depth gives the 3D point; the shaded color is
ambient + attenuation(distance) * (diffuse * max(n.l, 0)
+ specular * max(r.v, 0)^shininess), componentwise against the base color.
Exact rationals stand in for torch floats and direction vectors are used
unnormalized so the model stays inside ℚ. -/
def phongPixel (base : Vec3) (light : PointLights) (material : Materials)
    (d : ℚ) (n : Vec3) (ray : Vec3) : Vec3 :=
  let p := Vec3.smul d ray
  let to_light := Vec3.sub light.location p
  let dist_sq := Vec3.dot to_light to_light
  let attenuation := 1 / (1 + light.attenuation_factor * dist_sq)
  let diffuse := max (Vec3.dot n to_light) 0
  let view := Vec3.smul (-1) p
  let reflect := Vec3.sub (Vec3.smul (2 * Vec3.dot n to_light) n) to_light
  let specular := (max (Vec3.dot reflect view) 0) ^ material.shininess
  Vec3.add (Vec3.hadamard light.ambient_color base)
    (Vec3.smul attenuation
      (Vec3.add (Vec3.smul diffuse (Vec3.hadamard light.diffuse_color base))
        (Vec3.smul specular light.specular_color)))

/-- Modelled from the spec: `render_rgbd` (utils/rendering.py, not under src/)
— point-light Phong shading of a depth map with per-pixel ray directions and
normals.  A pure function of its seven arguments: no generator, no heap, no
learned parameters.  (The intrinsics argument is carried as in the call on
lines 53-59; the precomputed `pixel_locations` supply the rays.) -/
def render_rgbd (depth : List (List ℚ)) (base_color : Vec3)
    (normals : List (List Vec3)) (_camera_intrinsics : List (List ℚ))
    (light : PointLights) (material : Materials)
    (pixel_locations : List (List Vec3)) : List (List Vec3) :=
  (depth.zip (normals.zip pixel_locations)).map (fun rowz =>
    (rowz.1.zip (rowz.2.1.zip rowz.2.2)).map (fun pz =>
      phongPixel base_color light material pz.1 pz.2.1 pz.2.2))

/-- The constant fields of a `PhongDataSet` object read by `__getitem__`
(constructed once on lines 34-48 and never written afterwards). -/
structure PhongDataSetState where
  camera_intrinsics : List (List ℚ)
  grey : Vec3
  material : Materials
  light : PointLights
  resized_pixel_locations : List (List Vec3)
deriving DecidableEq, Repr

/-- The rendering step of `PhongDataSet.__getitem__` (lines 50-65), restricted
to the tensors the renderer consumes: the loaded depth and normals are
squarified (`data_transforms.Squarify`, outside src/, modelled by the in-src
`Squarify` per spec section 4.4) and the phong image is rendered from them
together with the constant dataset fields.  The dataset state is returned
unchanged: the method only reads it. -/
def PhongDataSet_getitem_render
    (interpQ : Nat → List (List ℚ) → List (List ℚ))
    (interpV : Nat → List (List Vec3) → List (List Vec3))
    (image_size : Nat) (st : PhongDataSetState)
    (depth : List (List ℚ)) (normals : List (List Vec3)) :
    List (List Vec3) × PhongDataSetState :=
  let d := Squarify interpQ (some image_size) depth
  let n := Squarify interpV (some image_size) normals
  (render_rgbd d st.grey n st.camera_intrinsics st.light st.material
      st.resized_pixel_locations, st)

/-! ## Concrete example inputs -/

/-- Ten distinct paired file names. -/
def pool10 : List String :=
  ["f0", "f1", "f2", "f3", "f4", "f5", "f6", "f7", "f8", "f9"]

/-- The split dict `{train: 0.6, validate: 0.4}` of the claim C1 scenario:
no entry for the test stage.  0.6 and 0.4 are modelled as exact rationals;
`int(0.4 * 10)` and `int(0.6 * 10)` evaluate to 4 and 6 under IEEE doubles
exactly as under exact rationals. -/
def c1split : Stage → Option SpecVal
  | Stage.test => none
  | Stage.validate => some (SpecVal.ratio (mkRat 2 5))
  | Stage.train => some (SpecVal.ratio (mkRat 3 5))

/-- The C1 split dict completed with a test regex that matches no file. -/
def c1splitA : Stage → Option SpecVal
  | Stage.test => some (SpecVal.regex (fun _ => false))
  | Stage.validate => some (SpecVal.ratio (mkRat 2 5))
  | Stage.train => some (SpecVal.ratio (mkRat 3 5))

/-- A split dict whose ratios sum to well below 1:
`{test: regex matching only "t", validate: 0.1, train: 0.1}`. -/
def c4split : Stage → Option SpecVal
  | Stage.test => some (SpecVal.regex (fun s => s = "t"))
  | Stage.validate => some (SpecVal.ratio (mkRat 1 10))
  | Stage.train => some (SpecVal.ratio (mkRat 1 10))

/-- Ten distinct files, of which exactly "t" matches the test regex of
`c4split`. -/
def c4pool : List String :=
  ["t", "a", "b", "c", "d", "e", "f", "g", "h", "i"]

/-- The split the code builds from `c4split` over `c4pool` with the identity
permutation: seven of the ten files end up in no stage. -/
def c4sf : SplitFiles :=
  ⟨⟨["t"], ["t"]⟩, ⟨["a"], ["a"]⟩, ⟨["b"], ["b"]⟩⟩

/-- Concrete optimizer hyperparameters: Adam, lr 1, 100 warmup batches,
4 accumulation batches, 1000 training batches. -/
def hp8 : OptHParams :=
  ⟨"adam", 1, 100, 4, 1000, "val_loss", 10⟩

/-! ## Helper lemmas about the split builder -/

theorem eraseFiles_nil (pool : List String) : eraseFiles pool [] = pool := rfl

theorem eraseFiles_cons_of_ne (x : String) (pool matched : List String)
    (h : ∀ f ∈ matched, f ≠ x) :
    eraseFiles (x :: pool) matched = x :: eraseFiles pool matched := by
  induction matched generalizing pool with
  | nil => rfl
  | cons m ms ih =>
    have hmx : ¬(x == m) := by
      simp only [beq_iff_eq]
      exact fun hxm => (h m (List.mem_cons_self m ms)) (hxm.symm)
    show eraseFiles ((x :: pool).erase m) ms = x :: eraseFiles (pool.erase m) ms
    rw [List.erase_cons_tail hmx]
    exact ih (pool.erase m) (fun f hf => h f (List.mem_cons_of_mem m hf))

theorem eraseFiles_filter (p : String → Bool) :
    ∀ (pool : List String), pool.Nodup →
      eraseFiles pool (pool.filter p) = pool.filter (fun x => !p x) := by
  intro pool
  induction pool with
  | nil => intro _; rfl
  | cons x xs ih =>
    intro hnd
    have hx : x ∉ xs := (List.nodup_cons.mp hnd).1
    have hxs : xs.Nodup := (List.nodup_cons.mp hnd).2
    by_cases hp : p x
    · rw [List.filter_cons_of_pos hp]
      show eraseFiles ((x :: xs).erase x) (xs.filter p) = _
      rw [List.erase_cons_head, ih hxs, List.filter_cons_of_neg (by simp [hp])]
    · rw [List.filter_cons_of_neg hp,
        eraseFiles_cons_of_ne x xs (xs.filter p)
          (fun f hf => fun hfx => hx (hfx ▸ (List.mem_filter.mp hf).1)),
        ih hxs, List.filter_cons_of_pos (by simp [hp])]

theorem regexPhase_inv (split : Stage → Option SpecVal) :
    ∀ (stgs : List Stage) (pool : List String), pool.Nodup →
    ∀ f fin, regexPhase split stgs pool = some (f, fin) →
      fin.Nodup ∧ fin ⊆ pool ∧
      (∀ s, s ∉ stgs → f s = []) ∧
      (∀ s q, split s = some (SpecVal.ratio q) → f s = []) ∧
      (∀ s, f s ⊆ pool) ∧
      (∀ s t, s ≠ t → ∀ x, x ∈ f s → x ∈ f t → False) ∧
      (∀ s x, x ∈ f s → x ∈ fin → False) ∧
      (∀ t p, t ∈ stgs → split t = some (SpecVal.regex p) → ∀ x ∈ fin, p x = false) := by
  intro stgs
  induction stgs with
  | nil =>
    intro pool hnd f fin hr
    simp only [regexPhase, Option.some.injEq, Prod.mk.injEq] at hr
    obtain ⟨hf, hfin⟩ := hr
    subst hfin
    refine ⟨hnd, fun a ha => ha, ?_, ?_, ?_, ?_, ?_, ?_⟩
    · intro s _; rw [← hf]
    · intro s _ _; rw [← hf]
    · intro s a ha; rw [← hf] at ha; simp at ha
    · intro s t _ x hx; rw [← hf] at hx; simp at hx
    · intro s x hx; rw [← hf] at hx; simp at hx
    · intro t p ht; simp at ht
  | cons s rest ih =>
    intro pool hnd f fin hr
    simp only [regexPhase] at hr
    cases hsp : split s with
    | none => rw [hsp] at hr; simp at hr
    | some v =>
      rw [hsp] at hr
      cases v with
      | regex p =>
        simp only [Option.map_eq_some'] at hr
        obtain ⟨⟨f', fin'⟩, hrec, heq⟩ := hr
        injection heq with hfeq hfineq
        subst hfineq
        have hpool' : eraseFiles pool (pool.filter p) = pool.filter (fun x => !p x) :=
          eraseFiles_filter p pool hnd
        rw [hpool'] at hrec
        have hnd' : (pool.filter (fun x => !p x)).Nodup :=
          (List.filter_sublist pool).nodup hnd
        obtain ⟨ifinnd, ifinsub, inotin, iratio, isub, idisj, idisjfin, iexcl⟩ :=
          ih (pool.filter (fun x => !p x)) hnd' f' fin' hrec
        have hfval : ∀ s0, f s0 = if s0 = s then pool.filter p else f' s0 := by
          intro s0
          rw [← hfeq]
          by_cases h0 : s0 = s
          · subst h0; simp [Function.update_same]
          · simp [Function.update_noteq h0, h0]
        refine ⟨ifinnd, fun a ha => (List.filter_sublist pool).subset (ifinsub ha),
          ?_, ?_, ?_, ?_, ?_, ?_⟩
        · intro s0 h0
          have h0s : s0 ≠ s := fun h => h0 (h ▸ List.mem_cons_self s rest)
          rw [hfval s0, if_neg h0s]
          exact inotin s0 (fun h => h0 (List.mem_cons_of_mem s h))
        · intro s0 q h0
          rcases eq_or_ne s0 s with h | h
          · rw [h, hsp] at h0; cases h0
          · rw [hfval s0, if_neg h]; exact iratio s0 q h0
        · intro s0 a ha
          rw [hfval s0] at ha
          by_cases h0 : s0 = s
          · rw [if_pos h0] at ha; exact (List.mem_filter.mp ha).1
          · rw [if_neg h0] at ha
            exact (List.filter_sublist pool).subset (isub s0 ha)
        · intro s0 t0 hne x hx0 hxt
          rw [hfval s0] at hx0; rw [hfval t0] at hxt
          by_cases h0 : s0 = s
          · rw [if_pos h0] at hx0
            rw [if_neg (h0 ▸ hne.symm : t0 ≠ s)] at hxt
            have hxp : p x = true := (List.mem_filter.mp hx0).2
            have hxnp : (!p x) = true := (List.mem_filter.mp (isub t0 hxt)).2
            rw [hxp] at hxnp; cases hxnp
          · rw [if_neg h0] at hx0
            by_cases h1 : t0 = s
            · rw [if_pos h1] at hxt
              have hxp : p x = true := (List.mem_filter.mp hxt).2
              have hxnp : (!p x) = true := (List.mem_filter.mp (isub s0 hx0)).2
              rw [hxp] at hxnp; cases hxnp
            · rw [if_neg h1] at hxt
              exact idisj s0 t0 hne x hx0 hxt
        · intro s0 x hx hxfin
          rw [hfval s0] at hx
          by_cases h0 : s0 = s
          · rw [if_pos h0] at hx
            have hxp : p x = true := (List.mem_filter.mp hx).2
            have hxnp : (!p x) = true := (List.mem_filter.mp (ifinsub hxfin)).2
            rw [hxp] at hxnp; cases hxnp
          · rw [if_neg h0] at hx
            exact idisjfin s0 x hx hxfin
        · intro t0 p0 ht0 h0 x hxfin
          rcases List.mem_cons.mp ht0 with h | h
          · subst h
            rw [hsp] at h0
            have hps : p0 = p := by cases h0; rfl
            subst hps
            have hxnp : (!p0 x) = true := (List.mem_filter.mp (ifinsub hxfin)).2
            simpa using hxnp
          · exact iexcl t0 p0 h h0 x hxfin
      | ratio q =>
        obtain ⟨ifinnd, ifinsub, inotin, iratio, isub, idisj, idisjfin, iexcl⟩ :=
          ih pool hnd f fin hr
        refine ⟨ifinnd, ifinsub, ?_, iratio, isub, idisj, idisjfin, ?_⟩
        · intro s0 h0
          rcases eq_or_ne s0 s with h | h
          · exact iratio s0 q (h ▸ hsp)
          · exact inotin s0 (fun hm => h0 (List.mem_cons_of_mem s hm))
        · intro t0 p0 ht0 h0 x hxfin
          rcases List.mem_cons.mp ht0 with h | h
          · subst h; rw [hsp] at h0; cases h0
          · exact iexcl t0 p0 h h0 x hxfin

theorem pySliceTo_eq_take {α : Type} (l : List α) (k : ℤ) :
    pySliceTo l k = l.take (if 0 ≤ k then k.toNat else l.length - k.natAbs) := by
  unfold pySliceTo
  split <;> rfl

theorem npIndex_some_mem (pool : List String) :
    ∀ (is : List Nat) (files : List String), npIndex pool is = some files →
      ∀ x ∈ files, ∃ i ∈ is, pool[i]? = some x := by
  intro is
  induction is with
  | nil =>
    intro files h x hx
    simp only [npIndex, Option.some.injEq] at h
    subst h; simp at hx
  | cons i rest ih =>
    intro files h x hx
    simp only [npIndex] at h
    cases hi : pool[i]? with
    | none => rw [hi] at h; simp at h
    | some y =>
      rw [hi] at h
      cases hrest : npIndex pool rest with
      | none => rw [hrest] at h; simp at h
      | some ys =>
        rw [hrest] at h
        simp only [Option.some.injEq] at h
        subst h
        rcases List.mem_cons.mp hx with h | h
        · exact ⟨i, List.mem_cons_self i rest, h ▸ hi⟩
        · obtain ⟨j, hj, hjx⟩ := ih ys hrest x h
          exact ⟨j, List.mem_cons_of_mem i hj, hjx⟩

theorem npIndex_length (pool : List String) :
    ∀ (is : List Nat) (files : List String), npIndex pool is = some files →
      files.length = is.length := by
  intro is
  induction is with
  | nil =>
    intro files h
    simp only [npIndex, Option.some.injEq] at h
    subst h; rfl
  | cons i rest ih =>
    intro files h
    simp only [npIndex] at h
    cases hi : pool[i]? with
    | none => rw [hi] at h; simp at h
    | some y =>
      rw [hi] at h
      cases hrest : npIndex pool rest with
      | none => rw [hrest] at h; simp at h
      | some ys =>
        rw [hrest] at h
        simp only [Option.some.injEq] at h
        subst h
        simp [ih ys hrest]

theorem npIndex_isSome (pool : List String) :
    ∀ (is : List Nat), (∀ i ∈ is, i < pool.length) →
      ∃ files, npIndex pool is = some files := by
  intro is
  induction is with
  | nil => intro _; exact ⟨[], rfl⟩
  | cons i rest ih =>
    intro h
    obtain ⟨files, hfiles⟩ := ih (fun j hj => h j (List.mem_cons_of_mem i hj))
    have hi : i < pool.length := h i (List.mem_cons_self i rest)
    refine ⟨pool[i] :: files, ?_⟩
    simp only [npIndex, List.getElem?_eq_getElem hi, hfiles]

theorem floatPhase_inv (split : Stage → Option SpecVal) (rc : Nat)
    (pool : List String) (hpool : pool.Nodup) :
    ∀ (stgs : List Stage) (indices : List Nat), indices.Nodup →
    ∀ g fin, floatPhase split rc pool stgs indices = some (g, fin) →
      (∀ s, s ∉ stgs → g s = []) ∧
      (∀ s p, split s = some (SpecVal.regex p) → g s = []) ∧
      (∀ s x, x ∈ g s → ∃ i ∈ indices, pool[i]? = some x) ∧
      (∀ s, g s ⊆ pool) ∧
      (∀ s t, s ≠ t → ∀ x, x ∈ g s → x ∈ g t → False) := by
  intro stgs
  induction stgs with
  | nil =>
    intro indices hnd g fin hr
    simp only [floatPhase, Option.some.injEq, Prod.mk.injEq] at hr
    obtain ⟨hg, hfin⟩ := hr
    refine ⟨?_, ?_, ?_, ?_, ?_⟩
    · intro s _; rw [← hg]
    · intro s _ _; rw [← hg]
    · intro s x hx; rw [← hg] at hx; simp at hx
    · intro s x hx; rw [← hg] at hx; simp at hx
    · intro s t _ x hx; rw [← hg] at hx; simp at hx
  | cons s rest ih =>
    intro indices hnd g fin hr
    simp only [floatPhase] at hr
    cases hsp : split s with
    | none => rw [hsp] at hr; simp at hr
    | some v =>
      rw [hsp] at hr
      cases v with
      | regex p =>
        obtain ⟨inotin, iregex, iprov, isub, idisj⟩ := ih indices hnd g fin hr
        refine ⟨?_, iregex, iprov, isub, idisj⟩
        intro s0 h0
        rcases eq_or_ne s0 s with h | h
        · exact iregex s0 p (h ▸ hsp)
        · exact inotin s0 (fun hm => h0 (List.mem_cons_of_mem s hm))
      | ratio q =>
        cases hfiles : npIndex pool (pySliceTo indices (pyIntMulNat q rc + 1)) with
        | none => simp [hfiles] at hr
        | some files =>
          simp only [hfiles, Option.map_eq_some'] at hr
          obtain ⟨⟨g', fin'⟩, hrec, heq⟩ := hr
          injection heq with hgeq hfineq
          obtain ⟨m, hslice⟩ : ∃ m,
              pySliceTo indices (pyIntMulNat q rc + 1) = indices.take m :=
            ⟨_, pySliceTo_eq_take indices _⟩
          have hdropnd : (indices.drop
              (pySliceTo indices (pyIntMulNat q rc + 1)).length).Nodup :=
            (List.drop_sublist _ _).nodup hnd
          obtain ⟨inotin, iregex, iprov, isub, idisj⟩ :=
            ih (indices.drop (pySliceTo indices (pyIntMulNat q rc + 1)).length)
              hdropnd g' fin' hrec
          have hgval : ∀ s0, g s0 = if s0 = s then files else g' s0 := by
            intro s0
            rw [← hgeq]
            by_cases h0 : s0 = s
            · subst h0; simp [Function.update_same]
            · simp [Function.update_noteq h0, h0]
          -- every element of the head stage comes from the take-slice of indices
          have hhead : ∀ x ∈ files, ∃ i ∈ indices.take m, pool[i]? = some x := by
            intro x hx
            obtain ⟨i, hi, hix⟩ := npIndex_some_mem pool _ files hfiles x hx
            exact ⟨i, hslice ▸ hi, hix⟩
          -- the slice of indices and the rest of indices are disjoint index sets
          have hsplitdisj : ∀ i, i ∈ indices.take m →
              i ∈ indices.drop (pySliceTo indices (pyIntMulNat q rc + 1)).length →
              False := by
            intro i hitake hidrop
            rw [hslice, List.length_take] at hidrop
            rcases le_or_lt m indices.length with hm | hm
            · rw [min_eq_left hm] at hidrop
              exact List.disjoint_take_drop hnd le_rfl hitake hidrop
            · rw [min_eq_right hm.le, List.drop_length] at hidrop
              simp at hidrop
          refine ⟨?_, ?_, ?_, ?_, ?_⟩
          · intro s0 h0
            have h0s : s0 ≠ s := fun h => h0 (h ▸ List.mem_cons_self s rest)
            rw [hgval s0, if_neg h0s]
            exact inotin s0 (fun hm => h0 (List.mem_cons_of_mem s hm))
          · intro s0 p0 h0
            rcases eq_or_ne s0 s with h | h
            · rw [h, hsp] at h0; cases h0
            · rw [hgval s0, if_neg h]; exact iregex s0 p0 h0
          · intro s0 x hx
            rw [hgval s0] at hx
            by_cases h0 : s0 = s
            · rw [if_pos h0] at hx
              obtain ⟨i, hi, hix⟩ := hhead x hx
              exact ⟨i, List.take_subset m indices hi, hix⟩
            · rw [if_neg h0] at hx
              obtain ⟨i, hi, hix⟩ := iprov s0 x hx
              exact ⟨i, List.drop_subset _ indices hi, hix⟩
          · intro s0 x hx
            rw [hgval s0] at hx
            by_cases h0 : s0 = s
            · rw [if_pos h0] at hx
              obtain ⟨i, _, hix⟩ := hhead x hx
              exact List.getElem?_mem hix
            · rw [if_neg h0] at hx
              exact isub s0 hx
          · intro s0 t0 hne x hx0 hxt
            rw [hgval s0] at hx0; rw [hgval t0] at hxt
            by_cases h0 : s0 = s
            · rw [if_pos h0] at hx0
              rw [if_neg (h0 ▸ hne.symm : t0 ≠ s)] at hxt
              obtain ⟨i, hi, hix⟩ := hhead x hx0
              obtain ⟨j, hj, hjx⟩ := iprov t0 x hxt
              have hilt : i < pool.length := by
                rcases List.getElem?_eq_some_iff.mp hix with ⟨h, _⟩
                exact h
              have hij : i = j :=
                List.getElem?_inj hilt hpool (hix.trans hjx.symm)
              exact hsplitdisj i hi (hij ▸ hj)
            · rw [if_neg h0] at hx0
              by_cases h1 : t0 = s
              · rw [if_pos h1] at hxt
                obtain ⟨i, hi, hix⟩ := hhead x hxt
                obtain ⟨j, hj, hjx⟩ := iprov s0 x hx0
                have hilt : i < pool.length := by
                  rcases List.getElem?_eq_some_iff.mp hix with ⟨h, _⟩
                  exact h
                have hij : i = j :=
                  List.getElem?_inj hilt hpool (hix.trans hjx.symm)
                exact hsplitdisj i hi (hij ▸ hj)
              · rw [if_neg h1] at hxt
                exact idisj s0 t0 hne x hx0 hxt

theorem pyIntMulNat_eq_pyInt (q : ℚ) (n : Nat) :
    pyIntMulNat q n = pyInt (q * n) := by
  have hden0 : (0 : ℚ) < (q.den : ℚ) := by
    exact_mod_cast q.den_pos
  have hqn : q * (n : ℚ) = ((q.num * n : ℤ) : ℚ) / ((q.den : ℕ) : ℚ) := by
    conv_lhs => rw [← Rat.num_div_den q]
    push_cast
    ring
  unfold pyIntMulNat pyInt
  rcases le_or_lt 0 (q.num * (n : ℤ)) with ha | ha
  · have h0 : (0 : ℚ) ≤ q * n := by
      rw [hqn]
      apply div_nonneg _ hden0.le
      exact_mod_cast ha
    rw [if_pos h0, hqn, Rat.floor_intCast_div_natCast,
      Int.tdiv_eq_ediv ha (by positivity)]
  · have h0 : ¬ (0 : ℚ) ≤ q * n := by
      rw [hqn]
      push_neg
      apply div_neg_of_neg_of_pos _ hden0
      exact_mod_cast ha
    rw [if_neg h0, hqn]
    have hrew : ((q.num * n : ℤ) : ℚ) / ((q.den : ℕ) : ℚ) =
        -(((-(q.num * n) : ℤ) : ℚ) / ((q.den : ℕ) : ℚ)) := by
      push_cast
      ring
    rw [hrew, Int.ceil_neg, Rat.floor_intCast_div_natCast]
    have htd : (q.num * n).tdiv q.den = -((-(q.num * n)).tdiv q.den) := by
      rw [Int.neg_tdiv, neg_neg]
    rw [htd, Int.tdiv_eq_ediv (by omega) (by positivity)]

theorem stage_mem_stagesOrder : ∀ t : Stage, t ∈ stagesOrder := by
  intro t; cases t <;> simp [stagesOrder]

theorem regexPhase_nil (split : Stage → Option SpecVal) (pool : List String) :
    regexPhase split [] pool = some (fun _ => [], pool) := rfl

theorem regexPhase_cons_regex (split : Stage → Option SpecVal) (s : Stage)
    (rest : List Stage) (pool : List String) (p : String → Bool)
    (h : split s = some (SpecVal.regex p)) :
    regexPhase split (s :: rest) pool =
      (regexPhase split rest (eraseFiles pool (pool.filter p))).map
        (fun r => (Function.update r.1 s (pool.filter p), r.2)) := by
  simp only [regexPhase, h]

theorem regexPhase_cons_ratio (split : Stage → Option SpecVal) (s : Stage)
    (rest : List Stage) (pool : List String) (q : ℚ)
    (h : split s = some (SpecVal.ratio q)) :
    regexPhase split (s :: rest) pool = regexPhase split rest pool := by
  simp only [regexPhase, h]

theorem floatPhase_nil (split : Stage → Option SpecVal) (rc : Nat)
    (pool : List String) (indices : List Nat) :
    floatPhase split rc pool [] indices = some (fun _ => [], indices) := rfl

theorem floatPhase_cons_regex (split : Stage → Option SpecVal) (rc : Nat)
    (pool : List String) (s : Stage) (rest : List Stage) (indices : List Nat)
    (p : String → Bool) (h : split s = some (SpecVal.regex p)) :
    floatPhase split rc pool (s :: rest) indices =
      floatPhase split rc pool rest indices := by
  simp only [floatPhase, h]

theorem floatPhase_cons_ratio (split : Stage → Option SpecVal) (rc : Nat)
    (pool : List String) (s : Stage) (rest : List Stage) (indices : List Nat)
    (q : ℚ) (files : List String)
    (h : split s = some (SpecVal.ratio q))
    (hfiles : npIndex pool (pySliceTo indices (pyIntMulNat q rc + 1)) = some files) :
    floatPhase split rc pool (s :: rest) indices =
      (floatPhase split rc pool rest
        (indices.drop (pySliceTo indices (pyIntMulNat q rc + 1)).length)).map
        (fun r => (Function.update r.1 s files, r.2)) := by
  simp only [floatPhase, h, hfiles]

theorem buildSplit_eq_some (split : Stage → Option SpecVal)
    (color depth : List String) (perm : List Nat) (sf : SplitFiles)
    (hb : buildSplit split color depth perm = some sf) :
    color.length = depth.length ∧
    ∃ fc finc fd find gc ic gd id0,
      regexPhase split stagesOrder color = some (fc, finc) ∧
      regexPhase split stagesOrder depth = some (fd, find) ∧
      floatPhase split perm.length finc stagesOrder perm = some (gc, ic) ∧
      floatPhase split perm.length find stagesOrder perm = some (gd, id0) ∧
      ∀ s, sf.stage s = ⟨fc s ++ gc s, fd s ++ gd s⟩ := by
  unfold buildSplit at hb
  split at hb
  case isFalse => simp at hb
  case isTrue hlen =>
    refine ⟨hlen, ?_⟩
    split at hb
    case h_2 => simp at hb
    case h_1 rc rd hrc hrd =>
      split at hb
      case h_2 => simp at hb
      case h_1 gc gd hgc hgd =>
        simp only [Option.some.injEq] at hb
        refine ⟨rc.1, rc.2, rd.1, rd.2, gc.1, gc.2, gd.1, gd.2, hrc, hrd, hgc, hgd, ?_⟩
        intro s
        cases s <;> rw [← hb] <;> rfl

/-- Claim C4 (amended): after a successful split construction the three stage
file lists are pairwise disjoint in every modality, every assigned file comes
from the enumerated pool of its modality, and no file assigned to a
float-ratio stage matches the regex of any regex-valued stage (regex matches
are removed from the pool before the ratio stages consume it).  The coverage
half of the original claim — that the stage lists together exhaust the pool —
is false on the code; see the counterexample. -/
theorem C4_split_assignment (split : Stage → Option SpecVal)
    (color depth : List String) (perm : List Nat) (sf : SplitFiles)
    (hc : color.Nodup) (hd : depth.Nodup) (hp : perm.Nodup)
    (hb : buildSplit split color depth perm = some sf) :
    (∀ s t : Stage, s ≠ t →
      (∀ x, x ∈ (sf.stage s).color → x ∈ (sf.stage t).color → False) ∧
      (∀ x, x ∈ (sf.stage s).depth → x ∈ (sf.stage t).depth → False)) ∧
    (∀ s : Stage, (sf.stage s).color ⊆ color ∧ (sf.stage s).depth ⊆ depth) ∧
    (∀ s q, split s = some (SpecVal.ratio q) →
      (∀ x ∈ (sf.stage s).color, ∀ t pat, split t = some (SpecVal.regex pat) →
        pat x = false) ∧
      (∀ x ∈ (sf.stage s).depth, ∀ t pat, split t = some (SpecVal.regex pat) →
        pat x = false)) := by
  obtain ⟨hlen, fc, finc, fd, find, gc, ic, gd, id0, hrc, hrd, hgc, hgd, hstage⟩ :=
    buildSplit_eq_some split color depth perm sf hb
  obtain ⟨cfinnd, cfinsub, _, cratio, csub, cdisj, cdisjfin, cexcl⟩ :=
    regexPhase_inv split stagesOrder color hc fc finc hrc
  obtain ⟨dfinnd, dfinsub, _, dratio, dsub, ddisj, ddisjfin, dexcl⟩ :=
    regexPhase_inv split stagesOrder depth hd fd find hrd
  obtain ⟨_, _, _, gcsub, gcdisj⟩ :=
    floatPhase_inv split perm.length finc cfinnd stagesOrder perm hp gc ic hgc
  obtain ⟨_, _, _, gdsub, gddisj⟩ :=
    floatPhase_inv split perm.length find dfinnd stagesOrder perm hp gd id0 hgd
  refine ⟨?_, ?_, ?_⟩
  · intro s t hst
    constructor
    · intro x hxs hxt
      rw [hstage s] at hxs; rw [hstage t] at hxt
      rcases List.mem_append.mp hxs with h1 | h1 <;>
        rcases List.mem_append.mp hxt with h2 | h2
      · exact cdisj s t hst x h1 h2
      · exact cdisjfin s x h1 (gcsub t h2)
      · exact cdisjfin t x h2 (gcsub s h1)
      · exact gcdisj s t hst x h1 h2
    · intro x hxs hxt
      rw [hstage s] at hxs; rw [hstage t] at hxt
      rcases List.mem_append.mp hxs with h1 | h1 <;>
        rcases List.mem_append.mp hxt with h2 | h2
      · exact ddisj s t hst x h1 h2
      · exact ddisjfin s x h1 (gdsub t h2)
      · exact ddisjfin t x h2 (gdsub s h1)
      · exact gddisj s t hst x h1 h2
  · intro s
    constructor
    · intro x hx
      rw [hstage s] at hx
      rcases List.mem_append.mp hx with h | h
      · exact csub s h
      · exact cfinsub (gcsub s h)
    · intro x hx
      rw [hstage s] at hx
      rcases List.mem_append.mp hx with h | h
      · exact dsub s h
      · exact dfinsub (gdsub s h)
  · intro s q hq
    constructor
    · intro x hx t pat hpat
      rw [hstage s] at hx
      rcases List.mem_append.mp hx with h | h
      · rw [cratio s q hq] at h; simp at h
      · exact cexcl t pat (stage_mem_stagesOrder t) hpat x (gcsub s h)
    · intro x hx t pat hpat
      rw [hstage s] at hx
      rcases List.mem_append.mp hx with h | h
      · rw [dratio s q hq] at h; simp at h
      · exact dexcl t pat (stage_mem_stagesOrder t) hpat x (gdsub s h)

/-- Claim C4 counterexample: with `c4split` (a test regex matching only "t"
and two ratio stages of 0.1 each) over the ten-file pool `c4pool` and the
identity permutation, the construction succeeds but assigns the file "c" to no
stage, so the stage lists do not cover the pool. -/
theorem C4_counterexample :
    buildSplit c4split c4pool c4pool (List.range 9) = some c4sf ∧
    "c" ∈ c4pool ∧
    "c" ∉ c4sf.test.color ∧ "c" ∉ c4sf.validate.color ∧ "c" ∉ c4sf.train.color := by
  refine ⟨by decide, by decide, by decide, by decide, by decide⟩

/-- Witness for C4: the amended theorem applied to the concrete `c4split`
construction. -/
theorem C4_witness :
    c4pool.Nodup ∧ (List.range 9).Nodup ∧
    (∀ s t : Stage, s ≠ t →
      (∀ x, x ∈ (c4sf.stage s).color → x ∈ (c4sf.stage t).color → False) ∧
      (∀ x, x ∈ (c4sf.stage s).depth → x ∈ (c4sf.stage t).depth → False)) ∧
    (∀ s : Stage, (c4sf.stage s).color ⊆ c4pool ∧ (c4sf.stage s).depth ⊆ c4pool) ∧
    (∀ s q, c4split s = some (SpecVal.ratio q) →
      (∀ x ∈ (c4sf.stage s).color, ∀ t pat, c4split t = some (SpecVal.regex pat) →
        pat x = false) ∧
      (∀ x ∈ (c4sf.stage s).depth, ∀ t pat, c4split t = some (SpecVal.regex pat) →
        pat x = false)) :=
  ⟨by decide, by decide,
    C4_split_assignment c4split c4pool c4pool (List.range 9) c4sf
      (by decide) (by decide) (by decide) (by decide)⟩

/-- Claim C1 counterexample: constructing a DepthDataModule over 10 paired
files with split `{train: 0.6, validate: 0.4}` does not assign 6 files to
train and 4 to validate — it raises KeyError, because the first stage loop
evaluates `split['test']` and the dict has no test key.  The construction
returns no assignment at all. -/
theorem C1_counterexample :
    buildSplit c1split pool10 pool10 (List.range 10) = none := by decide

/-- Claim C1 (amended): with the split completed by a test regex matching no
file, over any 10 distinct paired files and any permutation of 0..9, the
construction succeeds; the validate stage is allocated first (stage order is
test, validate, train) and receives `int(0.4 * 10) + 1 = 5` files, train
receives `min(int(0.6 * 10) + 1, 5) = 5` remaining files — not 6 and 4 — and
no file appears in both stages. -/
theorem C1_split_scenario (color : List String) (perm : List Nat)
    (hnd : color.Nodup) (hlen : color.length = 10)
    (hperm : perm.Perm (List.range 10)) :
    ∃ sf, buildSplit c1splitA color color perm = some sf ∧
      sf.test.color = [] ∧
      sf.validate.color.length = 5 ∧ sf.train.color.length = 5 ∧
      (∀ x, x ∈ sf.validate.color → x ∈ sf.train.color → False) := by
  have hplen : perm.length = 10 := by rw [hperm.length_eq, List.length_range]
  have hpmem : ∀ i ∈ perm, i < 10 := fun i hi =>
    List.mem_range.mp (hperm.mem_iff.mp hi)
  have hpnd : perm.Nodup := hperm.nodup_iff.mpr (List.nodup_range 10)
  -- regex phase: the never-matching test regex takes nothing from the pool
  have hfilter : color.filter (fun _ => false) = [] := List.filter_false color
  have hreg : regexPhase c1splitA stagesOrder color =
      some (Function.update (fun _ => []) Stage.test [], color) := by
    rw [show stagesOrder = [Stage.test, Stage.validate, Stage.train] from rfl,
      regexPhase_cons_regex c1splitA Stage.test _ color (fun _ => false) rfl,
      hfilter]
    rw [show eraseFiles color [] = color from rfl,
      regexPhase_cons_ratio c1splitA Stage.validate _ color (mkRat 2 5) rfl,
      regexPhase_cons_ratio c1splitA Stage.train _ color (mkRat 3 5) rfl,
      regexPhase_nil]
    rfl
  -- float phase: validate first, consuming indices[:5], then train the rest
  have hkv : pyIntMulNat (mkRat 2 5) 10 + 1 = 5 := by decide
  have hkt : pyIntMulNat (mkRat 3 5) 10 + 1 = 7 := by decide
  have hslice_v : pySliceTo perm ((5 : ℤ)) = perm.take 5 := rfl
  have hlen_v : (perm.take 5).length = 5 := by
    rw [List.length_take, hplen]; omega
  have hslice_t : pySliceTo (perm.drop 5) ((7 : ℤ)) = (perm.drop 5).take 7 := rfl
  have hlen_drop : (perm.drop 5).length = 5 := by
    rw [List.length_drop, hplen]
  have hlen_t : ((perm.drop 5).take 7).length = 5 := by
    rw [List.length_take, hlen_drop]; omega
  obtain ⟨files_v, hfv⟩ := npIndex_isSome color (perm.take 5)
    (fun i hi => hlen ▸ hpmem i (List.take_subset 5 perm hi))
  obtain ⟨files_t, hft⟩ := npIndex_isSome color ((perm.drop 5).take 7)
    (fun i hi => hlen ▸ hpmem i (List.drop_subset 5 perm (List.take_subset 7 _ hi)))
  have hflv : files_v.length = 5 := (npIndex_length color _ _ hfv).trans hlen_v
  have hflt : files_t.length = 5 := (npIndex_length color _ _ hft).trans hlen_t
  have hfloat : floatPhase c1splitA perm.length color stagesOrder perm =
      some (Function.update
              (Function.update (fun _ => []) Stage.train files_t)
              Stage.validate files_v,
            (perm.drop 5).drop 5) := by
    rw [show stagesOrder = [Stage.test, Stage.validate, Stage.train] from rfl,
      floatPhase_cons_regex c1splitA _ color Stage.test _ perm (fun _ => false) rfl,
      hplen,
      floatPhase_cons_ratio c1splitA 10 color Stage.validate _ perm (mkRat 2 5)
        files_v rfl (by rw [hkv, hslice_v]; exact hfv)]
    rw [hkv, hslice_v, hlen_v,
      floatPhase_cons_ratio c1splitA 10 color Stage.train _ (perm.drop 5)
        (mkRat 3 5) files_t rfl (by rw [hkt, hslice_t]; exact hft)]
    rw [hkt, hslice_t, hlen_t, floatPhase_nil]
    rfl
  -- assemble the constructor's result
  have hbuild : buildSplit c1splitA color color perm =
      some ⟨⟨[] ++ [], [] ++ []⟩, ⟨[] ++ files_v, [] ++ files_v⟩,
            ⟨[] ++ files_t, [] ++ files_t⟩⟩ := by
    unfold buildSplit
    rw [if_pos rfl, hreg]
    dsimp only
    rw [hfloat]
    dsimp only
    simp [Function.update_same, Function.update_noteq]
  refine ⟨_, hbuild, by simp, by simp [hflv], by simp [hflt], ?_⟩
  -- the two stages draw from disjoint slices of the permutation
  intro x hxv hxt
  simp only [List.nil_append] at hxv hxt
  obtain ⟨i, hi, hix⟩ := npIndex_some_mem color _ files_v hfv x hxv
  obtain ⟨j, hj, hjx⟩ := npIndex_some_mem color _ files_t hft x hxt
  have hilt : i < color.length := by
    rcases List.getElem?_eq_some_iff.mp hix with ⟨h, _⟩
    exact h
  have hij : i = j := List.getElem?_inj hilt hnd (hix.trans hjx.symm)
  exact List.disjoint_take_drop hpnd le_rfl hi
    (List.take_subset 7 _ (hij ▸ hj))

/-- Witness for C1: the amended scenario at the concrete ten-file pool and the
identity permutation. -/
theorem C1_witness :
    pool10.Nodup ∧ pool10.length = 10 ∧
    ∃ sf, buildSplit c1splitA pool10 pool10 (List.range 10) = some sf ∧
      sf.test.color = [] ∧
      sf.validate.color.length = 5 ∧ sf.train.color.length = 5 ∧
      (∀ x, x ∈ sf.validate.color → x ∈ sf.train.color → False) :=
  ⟨by decide, by decide,
    C1_split_scenario pool10 (List.range 10) (by decide) (by decide)
      (List.Perm.refl (List.range 10))⟩

/-- Claim C6 (the code contradicts its own docstring): when `split` is a
string path to a previously saved manifest, line 91 calls `json.load(split)`
on the `str` itself; `json.load` requires a file-like object, so the call
raises AttributeError for every path and every directory contents, and no
manifest is ever loaded. -/
theorem C6_manifest_load_fails (path : String) (color depth : List String)
    (perm : List Nat) :
    initSplitFiles (SplitArg.path path) color depth perm = none := rfl

/-! ## Helper lemmas about the training-step loss loop -/

theorem depth_grad_loop_ge_one {α : Type} (epoch : Nat) (b g : α → α → ℚ)
    (gt : α) :
    ∀ (l : List α) (i : Nat), 1 ≤ i → ∀ acc : ℚ × ℚ,
      depth_grad_loop epoch b g gt i l acc =
        (acc.1 + (l.map (fun y => b y gt)).sum, acc.2) := by
  intro l
  induction l with
  | nil => intro i hi acc; simp [depth_grad_loop]
  | cons x xs ih =>
    intro i hi acc
    simp only [depth_grad_loop]
    rw [if_neg (by omega : ¬(0 < epoch ∧ i = 0)), ih (i + 1) (by omega)]
    simp only [List.map_cons, List.sum_cons]
    rw [add_assoc]

theorem depth_grad_loop_closed {α : Type} (epoch : Nat) (b g : α → α → ℚ)
    (gt : α) (ys : List α) (h : ys ≠ []) :
    depth_grad_loop epoch b g gt 0 ys.reverse (0, 0) =
      ((ys.map (fun y => b y gt)).sum,
       if 0 < epoch then g (ys.getLast h) gt else 0) := by
  have hrev : ys.reverse = ys.getLast h :: ys.dropLast.reverse := by
    conv_lhs => rw [← List.dropLast_append_getLast h]
    rw [List.reverse_append, List.reverse_singleton, List.singleton_append]
  rw [hrev]
  show depth_grad_loop epoch b g gt 1 ys.dropLast.reverse
      (0 + b (ys.getLast h) gt,
       if 0 < epoch ∧ (0 : Nat) = 0 then g (ys.getLast h) gt else (0 : ℚ)) = _
  rw [depth_grad_loop_ge_one epoch b g gt ys.dropLast.reverse 1 le_rfl]
  refine Prod.ext ?_ ?_
  · show 0 + b (ys.getLast h) gt + (ys.dropLast.reverse.map fun y => b y gt).sum
      = (ys.map fun y => b y gt).sum
    rw [List.map_reverse, List.sum_reverse, zero_add]
    conv_rhs => rw [← List.dropLast_append_getLast h]
    rw [List.map_append, List.sum_append]
    simp [add_comm]
  · show (if 0 < epoch ∧ (0 : Nat) = 0 then g (ys.getLast h) gt else (0 : ℚ)) = _
    simp

theorem training_step_loss_closed {α β γ : Type} (cfg : LossConfig)
    (epoch : Nat) (b g : α → α → ℚ) (nfn : β → β → ℚ) (pfn : α × β → γ → ℚ)
    (rfn : β → ℚ) (ys : List α) (yn : β) (sd : α) (sn : β) (sp : γ)
    (h : ys ≠ []) :
    training_step_loss cfg epoch b g nfn pfn rfn ys yn sd sn sp =
      some ((ys.map (fun y => b y sd)).sum * cfg.depth_loss_factor +
            (if 0 < epoch then g (ys.getLast h) sd else 0) *
              cfg.depth_grad_loss_factor +
            (if cfg.predict_normals then nfn yn sn else 0) *
              cfg.normals_loss_factor +
            (if cfg.predict_normals then pfn (ys.getLast h, yn) sp else 0) *
              cfg.phong_loss_factor +
            (if cfg.predict_normals then rfn yn else 0)) := by
  by_cases hpn : cfg.predict_normals
  · simp only [training_step_loss, depth_grad_loop_closed epoch b g sd ys h,
      List.getLast?_eq_getLast ys h, hpn, if_true, if_false]
  · simp only [training_step_loss, depth_grad_loop_closed epoch b g sd ys h,
      List.getLast?_eq_getLast ys h, hpn, if_true, if_false]
    simp

/-- Claim C2 counterexample: with all four weighting factors set to 0,
`predict_normals` on, every loss function returning 0 and the normals-norm
regularization returning 1, the total training loss is 1, not 0 — the
regularization term enters the sum with no weighting factor, so the claim
that every term is multiplied by its own factor (and hence a zero factor
silences it) is false. -/
theorem C2_counterexample :
    training_step_loss (⟨0, 0, 0, 0, true⟩ : LossConfig) 1
      (fun (_ _ : Unit) => (0 : ℚ)) (fun _ _ => (0 : ℚ))
      (fun (_ _ : Unit) => (0 : ℚ)) (fun (_ : Unit × Unit) (_ : Unit) => (0 : ℚ))
      (fun _ => (1 : ℚ)) [()] () () () () = some 1 ∧ (1 : ℚ) ≠ 0 := by
  constructor
  · simp [training_step_loss, depth_grad_loop]
  · exact one_ne_zero

/-- Claim C2 (amended): the total training loss is the weighted sum of the
BerHu depth term, the gradient term, the normals cosine term and the phong
term, each multiplied by its own configuration factor — so each of those four
contributes nothing when its factor is 0 — plus the normals-norm
regularization term, which is added unweighted (coefficient 1) and still
contributes when every factor is 0. -/
theorem C2_loss_weighting {α β γ : Type} (cfg : LossConfig) (epoch : Nat)
    (b g : α → α → ℚ) (nfn : β → β → ℚ) (pfn : α × β → γ → ℚ) (rfn : β → ℚ)
    (ys : List α) (yn : β) (sd : α) (sn : β) (sp : γ) (h : ys ≠ []) :
    training_step_loss cfg epoch b g nfn pfn rfn ys yn sd sn sp =
      some ((ys.map (fun y => b y sd)).sum * cfg.depth_loss_factor +
            (if 0 < epoch then g (ys.getLast h) sd else 0) *
              cfg.depth_grad_loss_factor +
            (if cfg.predict_normals then nfn yn sn else 0) *
              cfg.normals_loss_factor +
            (if cfg.predict_normals then pfn (ys.getLast h, yn) sp else 0) *
              cfg.phong_loss_factor +
            (if cfg.predict_normals then rfn yn else 0)) ∧
    (cfg.depth_loss_factor = 0 → cfg.depth_grad_loss_factor = 0 →
     cfg.normals_loss_factor = 0 → cfg.phong_loss_factor = 0 →
     training_step_loss cfg epoch b g nfn pfn rfn ys yn sd sn sp =
       some (if cfg.predict_normals then rfn yn else 0)) := by
  refine ⟨training_step_loss_closed cfg epoch b g nfn pfn rfn ys yn sd sn sp h,
    ?_⟩
  intro h1 h2 h3 h4
  rw [training_step_loss_closed cfg epoch b g nfn pfn rfn ys yn sd sn sp h,
    h1, h2, h3, h4]
  simp

/-- Witness for C2: the amended decomposition at a one-scale prediction with
concrete constant loss functions. -/
theorem C2_witness :
    ([()] : List Unit) ≠ [] ∧
    (training_step_loss (⟨0, 0, 0, 0, true⟩ : LossConfig) 1
        (fun (_ _ : Unit) => (3 : ℚ)) (fun _ _ => (5 : ℚ))
        (fun (_ _ : Unit) => (7 : ℚ))
        (fun (_ : Unit × Unit) (_ : Unit) => (11 : ℚ)) (fun _ => (13 : ℚ))
        [()] () () () () =
      some (([()].map (fun (_ : Unit) => (3 : ℚ))).sum * (0 : ℚ) +
            (if 0 < 1 then (5 : ℚ) else 0) * (0 : ℚ) +
            (if true = true then (7 : ℚ) else 0) * (0 : ℚ) +
            (if true = true then (11 : ℚ) else 0) * (0 : ℚ) +
            (if true = true then (13 : ℚ) else 0))) ∧
    training_step_loss (⟨0, 0, 0, 0, true⟩ : LossConfig) 1
        (fun (_ _ : Unit) => (3 : ℚ)) (fun _ _ => (5 : ℚ))
        (fun (_ _ : Unit) => (7 : ℚ))
        (fun (_ : Unit × Unit) (_ : Unit) => (11 : ℚ)) (fun _ => (13 : ℚ))
        [()] () () () () = some (if true = true then (13 : ℚ) else 0) := by
  refine ⟨by simp, ?_, ?_⟩
  · exact (C2_loss_weighting _ 1 _ _ _ _ _ [()] () () () () (by simp)).1
  · exact (C2_loss_weighting _ 1 _ _ _ _ _ [()] () () () () (by simp)).2
      rfl rfl rfl rfl

/-- Claim C3: the gradient-loss term contributes exactly 0 to the total loss
when `current_epoch = 0`; for every `current_epoch >= 1` it is computed and
included (scaled by its factor), and it is computed only on the finest-scale
depth prediction — the first element of the reversed multi-scale output,
i.e. the last element of `y_hat_depth`: the total depends on the gradient-loss
function only through its value at that prediction. -/
theorem C3_gradient_loss_gating {α β γ : Type} (cfg : LossConfig) (epoch : Nat)
    (b g : α → α → ℚ) (nfn : β → β → ℚ) (pfn : α × β → γ → ℚ) (rfn : β → ℚ)
    (ys : List α) (yn : β) (sd : α) (sn : β) (sp : γ) (h : ys ≠ []) :
    (epoch = 0 →
      training_step_loss cfg epoch b g nfn pfn rfn ys yn sd sn sp =
        training_step_loss cfg epoch b (fun _ _ => 0) nfn pfn rfn ys yn sd sn sp) ∧
    (1 ≤ epoch →
      ∃ r, training_step_loss cfg epoch b (fun _ _ => 0) nfn pfn rfn
            ys yn sd sn sp = some r ∧
        training_step_loss cfg epoch b g nfn pfn rfn ys yn sd sn sp =
          some (r + g (ys.getLast h) sd * cfg.depth_grad_loss_factor)) := by
  constructor
  · intro h0
    subst h0
    rw [training_step_loss_closed cfg 0 b g nfn pfn rfn ys yn sd sn sp h,
      training_step_loss_closed cfg 0 b (fun _ _ => 0) nfn pfn rfn ys yn sd sn sp h]
    simp
  · intro h1
    refine ⟨_, training_step_loss_closed cfg epoch b (fun _ _ => 0) nfn pfn rfn
      ys yn sd sn sp h, ?_⟩
    rw [training_step_loss_closed cfg epoch b g nfn pfn rfn ys yn sd sn sp h,
      if_pos (by omega : 0 < epoch), if_pos (by omega : 0 < epoch)]
    congr 1
    ring

/-- Witness for C3: the epoch-1 inclusion at a one-scale prediction with a
constant gradient-loss function. -/
theorem C3_witness :
    ∃ r, training_step_loss (⟨1, 1, 1, 1, false⟩ : LossConfig) 1
          (fun (_ _ : Unit) => (3 : ℚ)) (fun _ _ => (0 : ℚ))
          (fun (_ _ : Unit) => (0 : ℚ))
          (fun (_ : Unit × Unit) (_ : Unit) => (0 : ℚ)) (fun _ => (0 : ℚ))
          [()] () () () () = some r ∧
      training_step_loss (⟨1, 1, 1, 1, false⟩ : LossConfig) 1
          (fun (_ _ : Unit) => (3 : ℚ)) (fun _ _ => (2 : ℚ))
          (fun (_ _ : Unit) => (0 : ℚ))
          (fun (_ : Unit × Unit) (_ : Unit) => (0 : ℚ)) (fun _ => (0 : ℚ))
          [()] () () () () = some (r + 2 * 1) :=
  (C3_gradient_loss_gating (⟨1, 1, 1, 1, false⟩ : LossConfig) 1
      (fun (_ _ : Unit) => (3 : ℚ)) (fun _ _ => (2 : ℚ))
      (fun (_ _ : Unit) => (0 : ℚ))
      (fun (_ : Unit × Unit) (_ : Unit) => (0 : ℚ)) (fun _ => (0 : ℚ))
      [()] () () () () (by simp)).2 (by omega)

/-- Claim C8: `configure_optimizers` returns two independent optimizer
instances — the warmup optimizer and the main optimizer come from two separate
`create_optimizer` calls and are distinct objects — and the warmup multiplier
equals `min(step / ceil(warmup_batches / accumulate_grad_batches), 1)` when
that ceiling is positive: it increases linearly with the step, never exceeds
1, and is identically 1 when the computed number of warmup steps is at most
0. -/
theorem C8_configure_optimizers (hp : OptHParams) (heap : Nat)
    (hadam : hp.optimizer = "adam") :
    ∃ w t h2, configure_optimizers hp heap = some ((w, t), h2) ∧
      w.optimizer.alloc_id ≠ t.optimizer.alloc_id ∧
      w.lr_scheduler.scheduler = Scheduler.lambdaLR (warmup hp) ∧
      t.lr_scheduler.scheduler = Scheduler.reduceLROnPlateau ∧
      (∀ s : Nat, warmup hp s ≤ 1) ∧
      (∀ s s' : Nat, s ≤ s' → warmup hp s ≤ warmup hp s') ∧
      (⌈(hp.warmup_batches : ℚ) / (hp.accumulate_grad_batches : ℚ)⌉ ≤ 0 →
        ∀ s : Nat, warmup hp s = 1) ∧
      (∀ W : ℤ,
        W = ⌈(hp.warmup_batches : ℚ) / (hp.accumulate_grad_batches : ℚ)⌉ →
        0 < W → ∀ s : Nat, warmup hp s = min ((s : ℚ) / (W : ℚ)) 1) := by
  have hco : configure_optimizers hp heap =
      some ((⟨(hp.warmup_batches : ℤ), ⟨heap, hp.lr⟩,
              ⟨Scheduler.lambdaLR (warmup hp), 1, true, none, "lr/warmup"⟩⟩,
             ⟨(hp.train_batches : ℤ) - (hp.warmup_batches : ℤ), ⟨heap + 1, hp.lr⟩,
              ⟨Scheduler.reduceLROnPlateau, hp.lr_scheduler_patience, false,
               some hp.lr_scheduler_monitor, "lr/reduce_on_plateau"⟩⟩),
            heap + 2) := by
    simp [configure_optimizers, create_optimizer, hadam]
  refine ⟨_, _, _, hco, by simp, rfl, rfl, ?_, ?_, ?_, ?_⟩
  · intro s
    unfold warmup
    dsimp only
    split
    · exact le_refl 1
    · exact min_le_right _ _
  · intro s s' hss
    unfold warmup
    dsimp only
    split
    · exact le_refl 1
    case isFalse hW =>
      have hWpos : (0 : ℚ) <
          (⌈(hp.warmup_batches : ℚ) / (hp.accumulate_grad_batches : ℚ)⌉ : ℚ) := by
        exact_mod_cast lt_of_not_le hW
      exact min_le_min ((div_le_div_iff_of_pos_right hWpos).mpr (by exact_mod_cast hss)) le_rfl
  · intro hW s
    unfold warmup
    dsimp only
    rw [if_pos hW]
  · intro W hWdef hWpos s
    unfold warmup
    dsimp only
    rw [if_neg (by omega), ← hWdef]

/-- Witness for C8: the optimizer construction at concrete Adam
hyperparameters. -/
theorem C8_witness :
    ∃ w t h2, configure_optimizers hp8 0 = some ((w, t), h2) ∧
      w.optimizer.alloc_id ≠ t.optimizer.alloc_id ∧
      w.lr_scheduler.scheduler = Scheduler.lambdaLR (warmup hp8) ∧
      t.lr_scheduler.scheduler = Scheduler.reduceLROnPlateau ∧
      (∀ s : Nat, warmup hp8 s ≤ 1) ∧
      (∀ s s' : Nat, s ≤ s' → warmup hp8 s ≤ warmup hp8 s') ∧
      (⌈(hp8.warmup_batches : ℚ) / (hp8.accumulate_grad_batches : ℚ)⌉ ≤ 0 →
        ∀ s : Nat, warmup hp8 s = 1) ∧
      (∀ W : ℤ,
        W = ⌈(hp8.warmup_batches : ℚ) / (hp8.accumulate_grad_batches : ℚ)⌉ →
        0 < W → ∀ s : Nat, warmup hp8 s = min ((s : ℚ) / (W : ℚ)) 1) :=
  C8_configure_optimizers hp8 0 rfl

/-- Claim C7: Squarify is deterministic — a pure function of the input tensor
and the configured image_size (together with torchvision's fixed crop and
resize kernels, abstracted as `interp`) — and on an already-square image of the
target size it is the identity, hence idempotent:
Squarify (Squarify x) = Squarify x. -/
theorem C7_squarify_idempotent {α : Type}
    (interp : Nat → List (List α) → List (List α)) (sz : Nat) (hsz : 0 < sz)
    (img : List (List α)) (hh : img.length = sz)
    (hw : ∀ row ∈ img, row.length = sz) :
    Squarify interp (some sz) img = img ∧
    Squarify interp (some sz) (Squarify interp (some sz) img) =
      Squarify interp (some sz) img := by
  have hwidth : (img.headD []).length = sz := by
    cases img with
    | nil => simp at hh; omega
    | cons r rs => exact hw r (List.mem_cons_self r rs)
  have htop : pyRoundHalfDiv2 (sz - sz) = 0 := by
    rw [Nat.sub_self]; rfl
  have hcrop : center_crop (min img.length (img.headD []).length) img = img := by
    unfold center_crop
    dsimp only
    rw [hh, hwidth, min_self, htop, List.drop_zero,
      List.take_of_length_le (le_of_eq hh)]
    have hrow : ∀ row ∈ img, (row.drop 0).take sz = row := by
      intro row hr
      rw [List.drop_zero, List.take_of_length_le (le_of_eq (hw row hr))]
    calc img.map (fun row => (row.drop 0).take sz)
        = img.map id := List.map_congr_left (fun row hr => hrow row hr)
      _ = img := List.map_id img
  have hfix : Squarify interp (some sz) img = img := by
    unfold Squarify tv_resize
    dsimp only
    rw [hcrop, hh, hwidth]
    simp
  exact ⟨hfix, by rw [hfix, hfix]⟩

/-- Witness for C7: Squarify at a concrete 2 by 2 rational image with target
size 2 and the identity interpolation kernel. -/
theorem C7_witness :
    0 < 2 ∧ ([[(1 : ℚ), 2], [3, 4]] : List (List ℚ)).length = 2 ∧
    (∀ row ∈ ([[(1 : ℚ), 2], [3, 4]] : List (List ℚ)), row.length = 2) ∧
    (Squarify (fun _ x => x) (some 2) [[(1 : ℚ), 2], [3, 4]] =
        [[(1 : ℚ), 2], [3, 4]] ∧
      Squarify (fun _ x => x) (some 2)
          (Squarify (fun _ x => x) (some 2) [[(1 : ℚ), 2], [3, 4]]) =
        Squarify (fun _ x => x) (some 2) [[(1 : ℚ), 2], [3, 4]]) :=
  ⟨by decide, by decide, by decide,
    C7_squarify_idempotent (fun _ x => x) 2 (by decide)
      [[(1 : ℚ), 2], [3, 4]] (by decide) (by decide)⟩

/-! ## Helper lemmas for the endoscopic mask -/

theorem mapWithIdx_getElem? {α β : Type} (f : Nat → α → β) :
    ∀ (l : List α) (s k : Nat),
      (mapWithIdx f s l)[k]? = (l[k]?).map (f (s + k)) := by
  intro l
  induction l with
  | nil => intro s k; simp [mapWithIdx]
  | cons a as ih =>
    intro s k
    cases k with
    | zero => simp [mapWithIdx]
    | succ k =>
      simp only [mapWithIdx, List.getElem?_cons_succ, ih (s + 1) k]
      have hidx : s + 1 + k = s + (k + 1) := by omega
      rw [hidx]

theorem randUnit_nonneg (seed i : Nat) : 0 ≤ randUnit seed i := by
  unfold randUnit
  positivity

theorem randUnit_lt_one (seed i : Nat) : randUnit seed i < 1 := by
  unfold randUnit
  rw [div_lt_one (by norm_num)]
  exact_mod_cast Nat.mod_lt _ (by norm_num)

/-- Claim C10: `_EndoMask.__call__` mutates its input tensor in place and
returns that same tensor object: the returned reference equals the argument
and every other heap cell is untouched; in the stored image every pixel
selected by the inverted circular mask holds the fill color — the configured
`mask_color`, or a freshly drawn random color with every component in
`[0, 1/10)` when `mask_color` is None — while every unselected pixel keeps
exactly its original value. -/
theorem C10_endomask (mask_color : Option Color3) (seed : Nat) (heap : Heap)
    (ref : Nat) (img : Img) (h : heap[ref]? = some img) :
    ∃ fill, EndoMask_call mask_color seed heap ref =
        some (ref, heap.set ref (maskImage fill img)) ∧
      (∀ k, k ≠ ref → (heap.set ref (maskImage fill img))[k]? = heap[k]?) ∧
      (heap.set ref (maskImage fill img))[ref]? = some (maskImage fill img) ∧
      (∀ i j, pixelAt (maskImage fill img) i j =
        (pixelAt img i j).map (fun px =>
          if create_circular_mask img.length (img.headD []).length true i j
          then fill else px)) ∧
      (mask_color = none → fill = randDarkColor seed ∧
        0 ≤ fill.r ∧ fill.r < 1/10 ∧ 0 ≤ fill.g ∧ fill.g < 1/10 ∧
        0 ≤ fill.b ∧ fill.b < 1/10) ∧
      (∀ c, mask_color = some c → fill = c) := by
  have hreflt : ref < heap.length := by
    rcases List.getElem?_eq_some_iff.mp h with ⟨hl, _⟩
    exact hl
  have hpixel : ∀ fill i j, pixelAt (maskImage fill img) i j =
      (pixelAt img i j).map (fun px =>
        if create_circular_mask img.length (img.headD []).length true i j
        then fill else px) := by
    intro fill i j
    unfold pixelAt maskImage
    dsimp only
    rw [mapWithIdx_getElem?]
    cases hrow : img[i]? with
    | none => simp
    | some row =>
      simp only [Option.map_some', Option.some_bind, Nat.zero_add,
        mapWithIdx_getElem?]
  have hlow : ∀ i : Nat, 0 ≤ randUnit seed i / 10 ∧ randUnit seed i / 10 < 1 / 10 := by
    intro i
    constructor
    · exact div_nonneg (randUnit_nonneg seed i) (by norm_num)
    · have h1 := randUnit_lt_one seed i
      linarith
  cases mask_color with
  | none =>
    refine ⟨randDarkColor seed, ?_, ?_, ?_, hpixel _, ?_, ?_⟩
    · unfold EndoMask_call
      rw [h]
    · intro k hk
      exact List.getElem?_set_ne (fun he => hk he.symm)
    · exact List.getElem?_set_self hreflt
    · intro _
      exact ⟨rfl, (hlow 0).1, (hlow 0).2, (hlow 1).1, (hlow 1).2,
        (hlow 2).1, (hlow 2).2⟩
    · intro c hc; cases hc
  | some c =>
    refine ⟨c, ?_, ?_, ?_, hpixel _, ?_, ?_⟩
    · unfold EndoMask_call
      rw [h]
    · intro k hk
      exact List.getElem?_set_ne (fun he => hk he.symm)
    · exact List.getElem?_set_self hreflt
    · intro hnone; cases hnone
    · intro c2 hc2
      cases hc2
      rfl

/-- Witness for C10: the mask call on a one-cell heap with a configured black
fill color. -/
theorem C10_witness :
    ∃ fill, EndoMask_call (some ⟨0, 0, 0⟩) 0 [[[⟨1, 1, 1⟩]]] 0 =
        some (0, ([[[⟨1, 1, 1⟩]]] : Heap).set 0
          (maskImage fill [[⟨1, 1, 1⟩]])) ∧
      (∀ k, k ≠ 0 → (([[[⟨1, 1, 1⟩]]] : Heap).set 0
          (maskImage fill [[⟨1, 1, 1⟩]]))[k]? = ([[[⟨1, 1, 1⟩]]] : Heap)[k]?) ∧
      (([[[⟨1, 1, 1⟩]]] : Heap).set 0
          (maskImage fill [[⟨1, 1, 1⟩]]))[0]? =
        some (maskImage fill [[⟨1, 1, 1⟩]]) ∧
      (∀ i j, pixelAt (maskImage fill [[⟨1, 1, 1⟩]]) i j =
        (pixelAt [[⟨1, 1, 1⟩]] i j).map (fun px =>
          if create_circular_mask ([[⟨1, 1, 1⟩]] : Img).length
              (([[⟨1, 1, 1⟩]] : Img).headD []).length true i j
          then fill else px)) ∧
      ((some ⟨0, 0, 0⟩ : Option Color3) = none → fill = randDarkColor 0 ∧
        0 ≤ fill.r ∧ fill.r < 1/10 ∧ 0 ≤ fill.g ∧ fill.g < 1/10 ∧
        0 ≤ fill.b ∧ fill.b < 1/10) ∧
      (∀ c, (some ⟨0, 0, 0⟩ : Option Color3) = some c → fill = c) :=
  C10_endomask (some ⟨0, 0, 0⟩) 0 [[[⟨1, 1, 1⟩]]] 0 [[⟨1, 1, 1⟩]] rfl

/-- Claim C5 (SynchronizedTransform modelled from the spec — its source,
data/image_dataset.py, is not under src/): one synchronized call draws the
affine parameters exactly once; every channel's output is the affine kernel
applied with those same parameters — identical rotation angle and translation
offsets across all channels — differing only in the per-channel fill argument
(the corner border color when `use_corner_as_fill`, else 0); and the generator
ends advanced by a single draw, so randomness is never resampled between
channels within the call. -/
theorem C5_synchronized_affine (A : AffineParams → Fill → Img → Img)
    (degrees translate : ℚ × ℚ) (g : RngState)
    (channels : List Img) (args : List Bool) :
    (SynchronizedTransform_call A degrees translate g channels args).1 =
      (channels.zip args).map (fun p =>
        A (sample_affine_params degrees translate g).1
          (if p.2 then Fill.color (borderColor p.1) else Fill.zero) p.1) ∧
    (SynchronizedTransform_call A degrees translate g channels args).2 =
      (sample_affine_params degrees translate g).2 :=
  ⟨rfl, rfl⟩

/-- Claim C9 (render_rgbd modelled from the spec — its source,
utils/rendering.py, is not under src/): the Phong render inside
`PhongDataSet.__getitem__` is a pure deterministic function of its inputs:
rendering from numerically equal depth maps and normals under the same dataset
state yields equal images, and the call returns the dataset state unchanged —
the renderer reads no hidden mutable state and has no learned parameters (its
only inputs are the depth, base color, normals, intrinsics, light, material
and pixel-ray arguments). -/
theorem C9_phong_render_pure
    (interpQ : Nat → List (List ℚ) → List (List ℚ))
    (interpV : Nat → List (List Vec3) → List (List Vec3))
    (image_size : Nat) (st : PhongDataSetState)
    (d1 d2 : List (List ℚ)) (n1 n2 : List (List Vec3))
    (hd : d1 = d2) (hn : n1 = n2) :
    (PhongDataSet_getitem_render interpQ interpV image_size st d1 n1).1 =
      (PhongDataSet_getitem_render interpQ interpV image_size st d2 n2).1 ∧
    (PhongDataSet_getitem_render interpQ interpV image_size st d1 n1).2 = st := by
  subst hd
  subst hn
  exact ⟨rfl, rfl⟩

/-- Witness for C9: the renderer at a concrete one-pixel depth map. -/
theorem C9_witness :
    (PhongDataSet_getitem_render (fun _ x => x) (fun _ x => x) 1
        ⟨[[1, 0, 0], [0, 1, 0], [0, 0, 1]], ⟨1/2, 1/2, 1/2⟩, ⟨8⟩,
         ⟨⟨0, 0, 0⟩, ⟨1, 1, 1⟩, ⟨1, 1, 1⟩, ⟨1, 1, 1⟩, 1⟩,
         [[⟨0, 0, 1⟩]]⟩
        [[(2 : ℚ)]] [[⟨0, 0, -1⟩]]).1 =
      (PhongDataSet_getitem_render (fun _ x => x) (fun _ x => x) 1
        ⟨[[1, 0, 0], [0, 1, 0], [0, 0, 1]], ⟨1/2, 1/2, 1/2⟩, ⟨8⟩,
         ⟨⟨0, 0, 0⟩, ⟨1, 1, 1⟩, ⟨1, 1, 1⟩, ⟨1, 1, 1⟩, 1⟩,
         [[⟨0, 0, 1⟩]]⟩
        [[(2 : ℚ)]] [[⟨0, 0, -1⟩]]).1 ∧
    (PhongDataSet_getitem_render (fun _ x => x) (fun _ x => x) 1
        ⟨[[1, 0, 0], [0, 1, 0], [0, 0, 1]], ⟨1/2, 1/2, 1/2⟩, ⟨8⟩,
         ⟨⟨0, 0, 0⟩, ⟨1, 1, 1⟩, ⟨1, 1, 1⟩, ⟨1, 1, 1⟩, 1⟩,
         [[⟨0, 0, 1⟩]]⟩
        [[(2 : ℚ)]] [[⟨0, 0, -1⟩]]).2 =
      ⟨[[1, 0, 0], [0, 1, 0], [0, 0, 1]], ⟨1/2, 1/2, 1/2⟩, ⟨8⟩,
       ⟨⟨0, 0, 0⟩, ⟨1, 1, 1⟩, ⟨1, 1, 1⟩, ⟨1, 1, 1⟩, 1⟩,
       [[⟨0, 0, 1⟩]]⟩ :=
  C9_phong_render_pure (fun _ x => x) (fun _ x => x) 1
    ⟨[[1, 0, 0], [0, 1, 0], [0, 0, 1]], ⟨1/2, 1/2, 1/2⟩, ⟨8⟩,
     ⟨⟨0, 0, 0⟩, ⟨1, 1, 1⟩, ⟨1, 1, 1⟩, ⟨1, 1, 1⟩, 1⟩,
     [[⟨0, 0, 1⟩]]⟩
    [[(2 : ℚ)]] [[(2 : ℚ)]] [[⟨0, 0, -1⟩]] [[⟨0, 0, -1⟩]] rfl rfl

end CystoDepth
